import Mathlib

/-!
Verification of the Pong game with a Mamdani fuzzy controller (lab9.py).

The physics (Ball, Racket) is embedded directly from the source.  Machine
integers are modelled as ℤ (Python ints are unbounded, so no wrap-around),
Python floats as exact rationals ℚ (the factor 1.1 becomes 11/10), and the
per-tick clock value returned by pygame.time.get_ticks is an explicit ℤ
parameter of Ball.move.  Fallible steps return Option.
-/

/-- A pygame Rect: position x, y and size w, h (all Python ints). -/
structure Rect where
  x : ℤ
  y : ℤ
  w : ℤ
  h : ℤ
deriving DecidableEq

/-- An RGB colour triple as used by pygame (Python ints). -/
structure Color where
  red : ℤ
  green : ℤ
  blue : ℤ
deriving DecidableEq

/-- lab9.py line 8: FPS = 30. -/
def FPS : ℤ := 30

/-- pygame Rect.colliderect: strict overlap on both axes (touching edges do
not collide). -/
abbrev colliderect (a b : Rect) : Prop :=
  a.x < b.x + b.w ∧ b.x < a.x + a.w ∧ a.y < b.y + b.h ∧ b.y < a.y + a.h

/-- Ball state, lab9.py lines 39-56: rect, current speeds, start speed,
start position, colour, start colour, and the debounce timestamp. -/
structure Ball where
  rect : Rect
  x_speed : ℚ
  y_speed : ℚ
  start_speed : ℚ
  start_x : ℤ
  start_y : ℤ
  color : Color
  start_color : Color
  last_collision : ℤ
deriving DecidableEq

/-- lab9.py lines 58-59: invert the vertical speed. -/
def Ball.bounce_y (b : Ball) : Ball :=
  { b with y_speed := -b.y_speed }

/-- lab9.py lines 61-62: invert the horizontal speed. -/
def Ball.bounce_x (b : Ball) : Ball :=
  { b with x_speed := -b.x_speed }

/-- lab9.py line 67 as a standalone step: the green channel is raised by 10
whenever it is still below 255, otherwise kept. -/
def greenStep (g : ℤ) : ℤ :=
  if g < 255 then g + 10 else g

/-- lab9.py lines 64-73: power bounce.  Raise the green channel via
greenStep, scale both speeds by 1.1 (= 11/10 exactly) and invert the
vertical speed. -/
def Ball.bounce_y_power (b : Ball) : Ball :=
  Ball.bounce_y
    { b with
      color := ⟨b.color.red, greenStep b.color.green, b.color.blue⟩,
      x_speed := b.x_speed * (11 / 10),
      y_speed := b.y_speed * (11 / 10) }

/-- lab9.py lines 75-81: reset position, speeds and colour to their start
values, then bounce_y (so the vertical speed ends up as the negated start
speed). -/
def Ball.reset (b : Ball) : Ball :=
  Ball.bounce_y
    { b with
      rect := { b.rect with x := b.start_x, y := b.start_y },
      x_speed := b.start_speed,
      y_speed := b.start_speed,
      color := b.start_color }

/-- Python round: round half to even (banker's rounding), as applied to the
rational model of the float speeds. -/
def pyRound (q : ℚ) : ℤ :=
  let f := q.floor
  let r := q - f
  if r < 1 / 2 then f
  else if 1 / 2 < r then f + 1
  else if f % 2 = 0 then f else f + 1

/-- pyRound is the identity on integer-valued speeds. -/
lemma pyRound_intCast (n : ℤ) : pyRound (n : ℚ) = n := by
  unfold pyRound
  rw [show ((n : ℚ)).floor = ⌊(n : ℚ)⌋ from rfl, Int.floor_intCast]
  norm_num

/-- pyRound at the default ball speed 3. -/
lemma pyRound_three : pyRound 3 = 3 := by
  rw [show (3 : ℚ) = ((3 : ℤ) : ℚ) by norm_num, pyRound_intCast]

/-- lab9.py lines 84-85: advance the rect by the rounded speeds. -/
def Ball.advance (b : Ball) : Ball :=
  { b with
    rect := { b.rect with
      x := b.rect.x + pyRound b.x_speed,
      y := b.rect.y + pyRound b.y_speed } }

/-- lab9.py lines 87-90: horizontal wall bounce (W is the board width). -/
def Ball.wallPhase (b : Ball) (W : ℤ) : Ball :=
  if b.rect.x < 0 ∨ b.rect.x > W - b.rect.w then Ball.bounce_x b else b

/-- lab9.py lines 92-95: vertical bound check triggering a reset (H is the
board height). -/
def Ball.resetPhase (b : Ball) (H : ℤ) : Ball :=
  if b.rect.y < 0 ∨ b.rect.y > H - b.rect.h then Ball.reset b else b

/-- lab9.py lines 104-106: edge-hit test, ball rect against racket rect
(Python // on the positive width agrees with Int division). -/
abbrev edgeHit (b r : Rect) : Prop :=
  b.x + b.w < r.x + r.w / 4 ∨ b.x > r.x + r.w - r.w / 4

/-- lab9.py lines 101-109, body of the racket loop: on overlap, stamp the
collision time and apply the power bounce on an edge hit, the plain
vertical bounce otherwise. -/
def Ball.collideRacket (t : ℤ) (b : Ball) (rRect : Rect) : Ball :=
  if colliderect b.rect rRect then
    let b1 := { b with last_collision := t }
    if edgeHit b1.rect rRect then Ball.bounce_y_power b1 else Ball.bounce_y b1
  else b

/-- lab9.py lines 83-109: Ball.move for one tick.  W, H are the board
dimensions, rackets the rects of the paddles passed as *args, and t the
value pygame.time.get_ticks() returns during this tick. -/
def Ball.move (b : Ball) (W H : ℤ) (rackets : List Rect) (t : ℤ) : Ball :=
  let b3 := Ball.resetPhase (Ball.wallPhase (Ball.advance b) W) H
  if t - b3.last_collision < FPS * 4 then b3
  else rackets.foldl (Ball.collideRacket t) b3

/-- Racket state, lab9.py lines 112-124: rect and the per-tick speed cap. -/
structure Racket where
  rect : Rect
  max_speed : ℤ
deriving DecidableEq

/-- lab9.py lines 127-129: delta = x - rect.x clamped into
[-max_speed, max_speed]. -/
def clampDelta (r : Racket) (x : ℤ) : ℤ :=
  let d0 := x - r.rect.x
  let d1 := if d0 > r.max_speed then r.max_speed else d0
  if d1 < -r.max_speed then -r.max_speed else d1

/-- lab9.py lines 130-135: zero the delta if the move would push the left
edge below 0, then zero it if it would push the right edge past W. -/
def boundDelta (r : Racket) (W d : ℤ) : ℤ :=
  let d3 := if r.rect.x + d < 0 then 0 else d
  if r.rect.x + r.rect.w + d3 > W then 0 else d3

/-- lab9.py lines 126-136: Racket.move applies the clamped and bounded
delta to the rect. -/
def Racket.move (r : Racket) (x : ℤ) (W : ℤ) : Racket :=
  { r with rect := { r.rect with
      x := r.rect.x + boundDelta r W (clampDelta r x) } }

/-- pygame Rect.centerx = x + w / 2 (widths are positive in the game, so
Int division matches Python floor division). -/
def rectCenterx (r : Rect) : ℤ :=
  r.x + r.w / 2

/-- lab9.py lines 209-215: NaiveOponent.act ignores the observation and
targets the ball's current centre x. -/
def NaiveOponentAct (ball : Ball) (racket : Racket) (W : ℤ)
    (x_diff y_diff : ℤ) : Racket :=
  Racket.move racket (rectCenterx ball.rect) W

/-- The racket-loop fold leaves the ball unchanged when no racket rect
overlaps it. -/
lemma foldl_collideRacket_of_no_overlap (t : ℤ) (b : Ball) (rs : List Rect)
    (h : ∀ r ∈ rs, ¬ colliderect b.rect r) :
    rs.foldl (Ball.collideRacket t) b = b := by
  induction rs with
  | nil => rfl
  | cons r rs ih =>
    have hr : ¬ colliderect b.rect r := h r (List.mem_cons_self r rs)
    have hstep : Ball.collideRacket t b r = b := by
      unfold Ball.collideRacket
      rw [if_neg hr]
    rw [List.foldl_cons, hstep]
    exact ih (fun r' hr' => h r' (List.mem_cons_of_mem r hr'))

/-- C1: paddle collisions in Ball.move are tick-debounced.  With the
advanced ball inside both wall bounds (isolating the paddle logic), a tick
whose clock value t is less than 4 x FPS past the stored collision time
leaves the ball exactly as advanced (no bounce, no speed change, no new
collision time); once at least 4 x FPS has elapsed, an overlapping racket
registers: the collision time becomes t and the bounce (power or plain) is
applied.  Applying the second branch twice at clock values 4 x FPS apart
shows that contacts spaced at least 4 x FPS apart both register. -/
theorem ball_move_debounce (b : Ball) (W H : ℤ) (r : Rect) (t : ℤ)
    (hx : ¬((Ball.advance b).rect.x < 0 ∨
        (Ball.advance b).rect.x > W - (Ball.advance b).rect.w))
    (hy : ¬((Ball.advance b).rect.y < 0 ∨
        (Ball.advance b).rect.y > H - (Ball.advance b).rect.h)) :
    (t - b.last_collision < FPS * 4 → Ball.move b W H [r] t = Ball.advance b) ∧
    (FPS * 4 ≤ t - b.last_collision → colliderect (Ball.advance b).rect r →
      Ball.move b W H [r] t =
        (if edgeHit (Ball.advance b).rect r
         then Ball.bounce_y_power { Ball.advance b with last_collision := t }
         else Ball.bounce_y { Ball.advance b with last_collision := t })) ∧
    (FPS * 4 ≤ t - b.last_collision → colliderect (Ball.advance b).rect r →
      (Ball.move b W H [r] t).last_collision = t) := by
  have h3 : Ball.resetPhase (Ball.wallPhase (Ball.advance b) W) H
      = Ball.advance b := by
    unfold Ball.wallPhase Ball.resetPhase
    rw [if_neg hx, if_neg hy]
  have hlast : (Ball.advance b).last_collision = b.last_collision := rfl
  refine ⟨?_, ?_, ?_⟩
  · intro h
    simp only [Ball.move]
    rw [h3, hlast, if_pos h]
  · intro h hc
    simp only [Ball.move]
    rw [h3, hlast, if_neg (not_lt.mpr h)]
    simp only [List.foldl]
    unfold Ball.collideRacket
    rw [if_pos hc]
  · intro h hc
    simp only [Ball.move]
    rw [h3, hlast, if_neg (not_lt.mpr h)]
    simp only [List.foldl]
    unfold Ball.collideRacket
    rw [if_pos hc]
    dsimp only
    split_ifs <;> rfl

/-- Witness for C1: a concrete ball overlapping a concrete racket on an
800 x 400 board.  At clock value 100 (within the 120-tick window of the
stored collision time 0) the contact changes nothing beyond the advance;
at clock value 200 it registers. -/
theorem ball_move_debounce_witness :
    Ball.move (⟨⟨100, 360, 20, 20⟩, 3, 3, 3, 390, 190, ⟨255, 10, 0⟩,
        ⟨255, 10, 0⟩, 0⟩ : Ball) 800 400 [⟨100, 380, 80, 20⟩] 100
      = Ball.advance ⟨⟨100, 360, 20, 20⟩, 3, 3, 3, 390, 190, ⟨255, 10, 0⟩,
        ⟨255, 10, 0⟩, 0⟩ ∧
    (Ball.move (⟨⟨100, 360, 20, 20⟩, 3, 3, 3, 390, 190, ⟨255, 10, 0⟩,
        ⟨255, 10, 0⟩, 0⟩ : Ball) 800 400 [⟨100, 380, 80, 20⟩]
        200).last_collision = 200 := by
  constructor
  · exact (ball_move_debounce _ 800 400 _ 100
      (by simp only [Ball.advance, pyRound_three]; decide)
      (by simp only [Ball.advance, pyRound_three]; decide)).1 (by decide)
  · exact (ball_move_debounce _ 800 400 _ 200
      (by simp only [Ball.advance, pyRound_three]; decide)
      (by simp only [Ball.advance, pyRound_three]; decide)).2.2
      (by decide) (by simp only [Ball.advance, pyRound_three]; decide)

set_option maxRecDepth 4000 in
/-- C3 (refuted): the green channel is not capped at 255.  From the
reachable colour state green = 250 (reached from the start value 10 by 24
power bounces, as the iteration shows), bounce_y_power produces green =
260 > 255, because the guard only tests green < 255 before adding 10. -/
theorem bounce_y_power_green_overflow :
    (Ball.bounce_y_power
        ⟨⟨0, 0, 20, 20⟩, 3, 3, 3, 400, 200, ⟨255, 250, 0⟩, ⟨255, 10, 0⟩,
          0⟩).color.green = 260 ∧
    ¬ (Ball.bounce_y_power
        ⟨⟨0, 0, 20, 20⟩, 3, 3, 3, 400, 200, ⟨255, 250, 0⟩, ⟨255, 10, 0⟩,
          0⟩).color.green ≤ 255 ∧
    Nat.iterate greenStep 24 10 = 250 := by
  refine ⟨by decide, by decide, by decide⟩

/-- C4: Racket.move clamps the requested delta into
[-max_speed, max_speed] and then suppresses it to zero entirely whenever
applying it would push the left edge below 0 or the right edge past the
board width; a paddle starting inside [0, W - w] stays inside, and the
applied displacement never exceeds max_speed in magnitude. -/
theorem racket_move_spec (r : Racket) (x W : ℤ)
    (hms : 0 ≤ r.max_speed) (h0 : 0 ≤ r.rect.x)
    (h1 : r.rect.x + r.rect.w ≤ W) :
    ((r.rect.x + clampDelta r x < 0 ∨
        W < r.rect.x + r.rect.w + clampDelta r x) →
      (Racket.move r x W).rect.x = r.rect.x) ∧
    (¬(r.rect.x + clampDelta r x < 0 ∨
        W < r.rect.x + r.rect.w + clampDelta r x) →
      (Racket.move r x W).rect.x = r.rect.x + clampDelta r x) ∧
    -r.max_speed ≤ clampDelta r x ∧ clampDelta r x ≤ r.max_speed ∧
    0 ≤ (Racket.move r x W).rect.x ∧
    (Racket.move r x W).rect.x + r.rect.w ≤ W ∧
    |(Racket.move r x W).rect.x - r.rect.x| ≤ r.max_speed := by
  have hcl : -r.max_speed ≤ clampDelta r x ∧ clampDelta r x ≤ r.max_speed := by
    unfold clampDelta
    dsimp only
    split_ifs <;> omega
  have hx0 : (Racket.move r x W).rect.x
      = r.rect.x + boundDelta r W (clampDelta r x) := rfl
  have hbd : (boundDelta r W (clampDelta r x) = 0 ∧
        (r.rect.x + clampDelta r x < 0 ∨
          W < r.rect.x + r.rect.w + clampDelta r x)) ∨
      (boundDelta r W (clampDelta r x) = clampDelta r x ∧
        ¬(r.rect.x + clampDelta r x < 0 ∨
          W < r.rect.x + r.rect.w + clampDelta r x)) := by
    unfold boundDelta
    dsimp only
    split_ifs <;>
      first
        | exact Or.inl ⟨rfl, by omega⟩
        | exact Or.inr ⟨rfl, by omega⟩
  rcases hbd with ⟨he, hcond⟩ | ⟨he, hcond⟩ <;>
    rw [hx0, he] <;>
    refine ⟨fun h => by omega, fun h => by omega, hcl.1, hcl.2, by omega,
      by omega, ?_⟩ <;>
    rw [abs_le] <;> omega

/-- Witness for C4: a concrete racket at x = 100 with max_speed 10 asked
to reach x = 400 on an 800-wide board moves exactly 10 to x = 110. -/
theorem racket_move_spec_witness :
    (Racket.move (⟨⟨100, 380, 80, 20⟩, 10⟩ : Racket) 400 800).rect.x = 110 ∧
    |(Racket.move (⟨⟨100, 380, 80, 20⟩, 10⟩ : Racket) 400 800).rect.x - 100|
      ≤ 10 := by
  have h := racket_move_spec (⟨⟨100, 380, 80, 20⟩, 10⟩ : Racket) 400 800
    (by decide) (by decide) (by decide)
  constructor
  · have h2 := h.2.1 (by decide)
    rw [h2]
    decide
  · exact h.2.2.2.2.2.2

/-- C7: whenever the advanced ball leaves the vertical bounds, Ball.move
resets it: position is exactly the start position, speeds are exactly the
start speed with the vertical sign reinstated by the bounce call (so both
magnitudes equal the start speed and the direction after reset is
deterministic), and the colour is exactly the start colour.  The rackets
are assumed not to overlap the start position, as in the game layout. -/
theorem ball_move_reset (b : Ball) (W H : ℤ) (rackets : List Rect) (t : ℤ)
    (hy : (Ball.advance b).rect.y < 0 ∨
        (Ball.advance b).rect.y > H - (Ball.advance b).rect.h)
    (hnc : ∀ r ∈ rackets,
        ¬ colliderect (Rect.mk b.start_x b.start_y b.rect.w b.rect.h) r) :
    (Ball.move b W H rackets t).rect.x = b.start_x ∧
    (Ball.move b W H rackets t).rect.y = b.start_y ∧
    (Ball.move b W H rackets t).x_speed = b.start_speed ∧
    (Ball.move b W H rackets t).y_speed = -b.start_speed ∧
    (Ball.move b W H rackets t).color = b.start_color := by
  have hrect : (Ball.wallPhase (Ball.advance b) W).rect
      = (Ball.advance b).rect := by
    unfold Ball.wallPhase Ball.bounce_x
    split_ifs <;> rfl
  have hR : Ball.resetPhase (Ball.wallPhase (Ball.advance b) W) H
      = Ball.reset (Ball.advance b) := by
    unfold Ball.resetPhase
    rw [hrect, if_pos hy]
    unfold Ball.wallPhase
    split_ifs <;> rfl
  have hmove : Ball.move b W H rackets t = Ball.reset (Ball.advance b) := by
    simp only [Ball.move]
    rw [hR]
    split_ifs with hdb
    · rfl
    · exact foldl_collideRacket_of_no_overlap t _ rackets hnc
  rw [hmove]
  exact ⟨rfl, rfl, rfl, rfl, rfl⟩

/-- Witness for C7: a concrete ball that crosses the bottom bound of an
800 x 400 board this tick is back at its start position (390, 190) with
speeds (3, -3) and the start colour, even with both game rackets passed
in and the debounce window long expired. -/
theorem ball_move_reset_witness :
    (Ball.move (⟨⟨400, 378, 20, 20⟩, 3, 3, 3, 390, 190, ⟨255, 90, 0⟩,
        ⟨255, 10, 0⟩, 0⟩ : Ball) 800 400
        [⟨360, 0, 80, 20⟩, ⟨360, 380, 80, 20⟩] 500).rect.x = 390 ∧
    (Ball.move (⟨⟨400, 378, 20, 20⟩, 3, 3, 3, 390, 190, ⟨255, 90, 0⟩,
        ⟨255, 10, 0⟩, 0⟩ : Ball) 800 400
        [⟨360, 0, 80, 20⟩, ⟨360, 380, 80, 20⟩] 500).rect.y = 190 ∧
    (Ball.move (⟨⟨400, 378, 20, 20⟩, 3, 3, 3, 390, 190, ⟨255, 90, 0⟩,
        ⟨255, 10, 0⟩, 0⟩ : Ball) 800 400
        [⟨360, 0, 80, 20⟩, ⟨360, 380, 80, 20⟩] 500).y_speed = -3 ∧
    (Ball.move (⟨⟨400, 378, 20, 20⟩, 3, 3, 3, 390, 190, ⟨255, 90, 0⟩,
        ⟨255, 10, 0⟩, 0⟩ : Ball) 800 400
        [⟨360, 0, 80, 20⟩, ⟨360, 380, 80, 20⟩] 500).color = ⟨255, 10, 0⟩ := by
  have h := ball_move_reset (⟨⟨400, 378, 20, 20⟩, 3, 3, 3, 390, 190,
      ⟨255, 90, 0⟩, ⟨255, 10, 0⟩, 0⟩ : Ball) 800 400
    [⟨360, 0, 80, 20⟩, ⟨360, 380, 80, 20⟩] 500
    (by simp only [Ball.advance, pyRound_three]; decide) (by decide)
  exact ⟨h.1, h.2.1, h.2.2.2.1, h.2.2.2.2⟩

/-- C10: NaiveOponent.act is independent of both of its observation
arguments; for a fixed ball/racket/board state it always performs the
same move, namely the racket move targeting the ball's current centre x. -/
theorem naive_oponent_ignores_observation (ball : Ball) (racket : Racket)
    (W x1 y1 x2 y2 : ℤ) :
    NaiveOponentAct ball racket W x1 y1 = NaiveOponentAct ball racket W x2 y2 ∧
    NaiveOponentAct ball racket W x1 y1
      = Racket.move racket (rectCenterx ball.rect) W :=
  ⟨rfl, rfl⟩

/-- Modelled from the spec: skfuzzy.trimf, the triangular membership
function with breakpoints a <= b <= c (the library itself is not part of
the repository; spec section 3 gives its shape).  It is 1 at b, climbs
linearly on (a, b), descends linearly on (b, c) and is 0 outside; with
a = b or b = c the corresponding ramp is absent, matching the saturating
shoulder terms.  On the integer universe grids of lab9.py every
breakpoint is an integer, so evaluating this function at an integer crisp
input agrees with skfuzzy's interpolation of the sampled curve. -/
def tri (a b c x : ℚ) : ℚ :=
  if x = b then 1
  else if a < x ∧ x < b then (x - a) / (b - a)
  else if b < x ∧ x < c then (c - x) / (c - b)
  else 0

/-- lab9.py line 257: x_diff term far_left = trimf [-400, -400, -20]. -/
def x_far_left (x : ℚ) : ℚ := tri (-400) (-400) (-20) x

/-- lab9.py line 258: x_diff term left = trimf [-30, -15, 0]. -/
def x_left (x : ℚ) : ℚ := tri (-30) (-15) 0 x

/-- lab9.py line 259: x_diff term center = trimf [-15, 0, 15]. -/
def x_center (x : ℚ) : ℚ := tri (-15) 0 15 x

/-- lab9.py line 260: x_diff term right = trimf [0, 15, 30]. -/
def x_right (x : ℚ) : ℚ := tri 0 15 30 x

/-- lab9.py line 261: x_diff term far_right = trimf [20, 400, 400]. -/
def x_far_right (x : ℚ) : ℚ := tri 20 400 400 x

/-- lab9.py line 264: y_diff term above = trimf [-200, -100, 0]. -/
def y_above (y : ℚ) : ℚ := tri (-200) (-100) 0 y

/-- lab9.py line 265: y_diff term center = trimf [-100, 0, 100]. -/
def y_center (y : ℚ) : ℚ := tri (-100) 0 100 y

/-- lab9.py line 266: y_diff term below = trimf [0, 100, 200]. -/
def y_below (y : ℚ) : ℚ := tri 0 100 200 y

/-- lab9.py line 246: velocity term fast_left = trimf [-10, -10, -10]. -/
def v_fast_left (u : ℚ) : ℚ := tri (-10) (-10) (-10) u

/-- lab9.py line 247: velocity term slow_left = trimf [-9, -9, -3]. -/
def v_slow_left (u : ℚ) : ℚ := tri (-9) (-9) (-3) u

/-- lab9.py line 248: velocity term stop = trimf [-3, 0, 3]. -/
def v_stop (u : ℚ) : ℚ := tri (-3) 0 3 u

/-- lab9.py line 249: velocity term slow_right = trimf [3, 9, 9]. -/
def v_slow_right (u : ℚ) : ℚ := tri 3 9 9 u

/-- lab9.py line 250: velocity term fast_right = trimf [10, 10, 10]. -/
def v_fast_right (u : ℚ) : ℚ := tri 10 10 10 u

/-- lab9.py line 270, antecedent of rule 1:
x=left AND (y=above OR y=center), with AND = min and OR = max. -/
def rule1 (x y : ℚ) : ℚ := min (x_left x) (max (y_above y) (y_center y))

/-- lab9.py line 271, antecedent of rule 2:
x=right AND (y=above OR y=center). -/
def rule2 (x y : ℚ) : ℚ := min (x_right x) (max (y_above y) (y_center y))

/-- Modelled from the spec: per-output-term firing strength, the maximum
over all rules targeting the term (spec section 4.4 step 2).  fast_right
is targeted by rules 1 and 3. -/
def fire_fast_right (x y : ℚ) : ℚ := max (rule1 x y) (x_far_left x)

/-- Firing strength of slow_right: rule 4 only. -/
def fire_slow_right (x y : ℚ) : ℚ := x_left x

/-- Firing strength of stop: rule 5 only. -/
def fire_stop (x y : ℚ) : ℚ := x_center x

/-- Firing strength of slow_left: rule 6 only. -/
def fire_slow_left (x y : ℚ) : ℚ := x_right x

/-- Firing strength of fast_left: rules 2 and 7. -/
def fire_fast_left (x y : ℚ) : ℚ := max (rule2 x y) (x_far_right x)

/-- Modelled from the spec: the aggregate output fuzzy set (spec section
4.4 step 3): each output term clipped at its firing strength (pointwise
min), combined by pointwise max. -/
def aggAt (x y u : ℚ) : ℚ :=
  max (min (fire_fast_left x y) (v_fast_left u))
    (max (min (fire_slow_left x y) (v_slow_left u))
      (max (min (fire_stop x y) (v_stop u))
        (max (min (fire_slow_right x y) (v_slow_right u))
          (min (fire_fast_right x y) (v_fast_right u)))))

/-- The i-th point of the discretized output universe range(-10, 11). -/
def outU (i : ℕ) : ℚ := (i : ℚ) - 10

/-- Modelled from the spec: area term of the centroid, the sum of the
aggregate memberships over the 21 output grid points. -/
def aggArea (x y : ℚ) : ℚ := ∑ i ∈ Finset.range 21, aggAt x y (outU i)

/-- Modelled from the spec: moment term of the centroid. -/
def aggMoment (x y : ℚ) : ℚ :=
  ∑ i ∈ Finset.range 21, outU i * aggAt x y (outU i)

/-- Modelled from the spec: centroid defuzzification (spec section 4.4
step 4), returning none when the aggregate set is identically zero (the
degenerate case of step 5). -/
def centroidOpt (x y : ℚ) : Option ℚ :=
  if aggArea x y = 0 then none else some (aggMoment x y / aggArea x y)

/-- Modelled from the spec: out-of-universe crisp inputs saturate to the
universe bounds before fuzzification (spec section 3, Observation). -/
def clipTo (lo hi v : ℤ) : ℤ := max lo (min hi v)

/-- lab9.py lines 288-298: FuzzyPlayer.make_decision.  The crisp inputs
are clipped to their universes, the Mamdani pipeline runs, and a
degenerate (empty) aggregate set yields the fallback 0 via the
try/except, modelled by Option.getD. -/
def make_decision (x_diff y_diff : ℤ) : ℚ :=
  (centroidOpt ((clipTo (-400) 400 x_diff : ℤ) : ℚ)
    ((clipTo (-200) 200 y_diff : ℤ) : ℚ)).getD 0

/-- Sum of the x_diff memberships at a crisp value (coverage check). -/
def xCoverSum (x : ℚ) : ℚ :=
  x_far_left x + x_left x + x_center x + x_right x + x_far_right x

/-- Sum of the y_diff memberships at a crisp value (coverage check). -/
def yCoverSum (y : ℚ) : ℚ := y_above y + y_center y + y_below y

/-- Triangular memberships are nonnegative. -/
lemma tri_nonneg (a b c x : ℚ) : 0 ≤ tri a b c x := by
  unfold tri
  split_ifs with h1 h2 h3
  · norm_num
  · exact le_of_lt (div_pos (by linarith [h2.1]) (by linarith [h2.1, h2.2]))
  · exact le_of_lt (div_pos (by linarith [h3.2]) (by linarith [h3.1, h3.2]))
  · exact le_rfl

/-- A triangular membership is positive at its apex. -/
lemma tri_pos_of_eq_b (a c : ℚ) {b x : ℚ} (h : x = b) : 0 < tri a b c x := by
  unfold tri
  rw [if_pos h]
  norm_num

/-- A triangular membership is positive on the open left ramp. -/
lemma tri_pos_left {a b x : ℚ} (c : ℚ) (h1 : a < x) (h2 : x < b) :
    0 < tri a b c x := by
  unfold tri
  rw [if_neg (by intro he; rw [he] at h2; exact lt_irrefl b h2),
    if_pos ⟨h1, h2⟩]
  exact div_pos (by linarith) (by linarith)

/-- A triangular membership is positive on the open right ramp. -/
lemma tri_pos_right {b c x : ℚ} (a : ℚ) (h1 : b < x) (h2 : x < c) :
    0 < tri a b c x := by
  unfold tri
  rw [if_neg (by intro he; rw [he] at h1; exact lt_irrefl b h1),
    if_neg (by rintro ⟨_, hb⟩; exact absurd h1 (not_lt.mpr (le_of_lt hb))),
    if_pos ⟨h1, h2⟩]
  exact div_pos (by linarith) (by linarith)

/-- The mirror image of a triangular membership: reflecting the
breakpoints and the crisp value about 0 preserves the value. -/
lemma tri_neg (a b c x : ℚ) : tri (-c) (-b) (-a) (-x) = tri a b c x := by
  unfold tri
  by_cases h1 : x = b
  · rw [if_pos (by rw [h1]), if_pos h1]
  · rw [if_neg (fun hc => h1 (neg_inj.mp hc)), if_neg h1]
    by_cases h2 : a < x ∧ x < b
    · rw [if_neg (by rintro ⟨_, hb⟩; exact absurd h2.2 (not_lt.mpr (le_of_lt (neg_lt_neg_iff.mp hb)))),
        if_pos ⟨by linarith [h2.2], by linarith [h2.1]⟩, if_pos h2]
      rw [div_eq_div_iff (by linarith [h2.1, h2.2]) (by linarith [h2.1, h2.2])]
      ring
    · by_cases h3 : b < x ∧ x < c
      · rw [if_pos ⟨by linarith [h3.2], by linarith [h3.1]⟩, if_neg h2,
          if_pos h3]
        rw [div_eq_div_iff (by linarith [h3.1, h3.2]) (by linarith [h3.1, h3.2])]
        ring
      · rw [if_neg, if_neg, if_neg h2, if_neg h3]
        · rintro ⟨ha, hb⟩
          exact h2 ⟨by linarith [neg_lt_neg_iff.mp hb], by linarith [neg_lt_neg_iff.mp ha]⟩
        · rintro ⟨ha, hb⟩
          exact h3 ⟨by linarith [neg_lt_neg_iff.mp hb], by linarith [neg_lt_neg_iff.mp ha]⟩

/-- On the x_diff universe [-400, 400] at least one x term is strictly
positive (full coverage of the x universe, endpoints included). -/
lemma xterm_cases (x : ℚ) (h1 : -400 ≤ x) (h2 : x ≤ 400) :
    0 < x_far_left x ∨ 0 < x_left x ∨ 0 < x_center x ∨ 0 < x_right x ∨
      0 < x_far_right x := by
  rcases lt_or_le x (-20) with hA | hA
  · refine Or.inl ?_
    unfold x_far_left
    rcases eq_or_lt_of_le h1 with hE | hE
    · exact tri_pos_of_eq_b _ _ hE.symm
    · exact tri_pos_right _ hE hA
  · rcases lt_or_le x 0 with hB | hB
    · refine Or.inr (Or.inl ?_)
      unfold x_left
      rcases lt_trichotomy x (-15) with h | h | h
      · exact tri_pos_left _ (by linarith) h
      · exact tri_pos_of_eq_b _ _ h
      · exact tri_pos_right _ h hB
    · rcases lt_or_le x 15 with hC | hC
      · refine Or.inr (Or.inr (Or.inl ?_))
        unfold x_center
        rcases eq_or_lt_of_le hB with h | h
        · exact tri_pos_of_eq_b _ _ h.symm
        · exact tri_pos_right _ h hC
      · rcases lt_or_le x 30 with hD | hD
        · refine Or.inr (Or.inr (Or.inr (Or.inl ?_)))
          unfold x_right
          rcases eq_or_lt_of_le hC with h | h
          · exact tri_pos_of_eq_b _ _ h.symm
          · exact tri_pos_right _ h hD
        · refine Or.inr (Or.inr (Or.inr (Or.inr ?_)))
          unfold x_far_right
          rcases eq_or_lt_of_le h2 with h | h
          · exact tri_pos_of_eq_b _ _ h
          · exact tri_pos_left _ (by linarith) h

/-- Strictly inside the y_diff universe at least one y term is strictly
positive. -/
lemma yterm_cases (y : ℚ) (h1 : -200 < y) (h2 : y < 200) :
    0 < y_above y ∨ 0 < y_center y ∨ 0 < y_below y := by
  rcases lt_trichotomy y (-100) with h | h | h
  · exact Or.inl (by unfold y_above; exact tri_pos_left _ h1 h)
  · exact Or.inl (by unfold y_above; exact tri_pos_of_eq_b _ _ h)
  · rcases lt_trichotomy y 100 with hc | hc | hc
    · refine Or.inr (Or.inl ?_)
      unfold y_center
      rcases lt_trichotomy y 0 with h0 | h0 | h0
      · exact tri_pos_left _ h h0
      · exact tri_pos_of_eq_b _ _ h0
      · exact tri_pos_right _ h0 hc
    · exact Or.inr (Or.inr (by unfold y_below; exact tri_pos_of_eq_b _ _ hc))
    · exact Or.inr (Or.inr (by unfold y_below; exact tri_pos_right _ hc h2))

/-- C2 (refuted at the y endpoints): at the y_diff universe endpoints
-200 and 200 every y term has membership 0, so the sum of memberships is
0, not strictly positive; both endpoints belong to the declared universe
[-200, 200]. -/
theorem y_universe_endpoint_gap :
    yCoverSum (-200) = 0 ∧ yCoverSum 200 = 0 ∧
    (-(200 : ℚ)) ∈ Set.Icc (-200 : ℚ) 200 ∧
    (200 : ℚ) ∈ Set.Icc (-200 : ℚ) 200 := by
  refine ⟨?_, ?_, ?_, ?_⟩
  · norm_num [yCoverSum, y_above, y_center, y_below, tri]
  · norm_num [yCoverSum, y_above, y_center, y_below, tri]
  · rw [Set.mem_Icc]; constructor <;> norm_num
  · rw [Set.mem_Icc]; constructor <;> norm_num

/-- C2 (amended): the sum of memberships is strictly positive for every
crisp value of the x_diff universe [-400, 400] including its endpoints,
and for every crisp value strictly inside the y_diff universe
(-200, 200); it vanishes only at the y endpoints. -/
theorem fuzzy_coverage_inside (x y : ℚ) (hx1 : -400 ≤ x) (hx2 : x ≤ 400)
    (hy1 : -200 < y) (hy2 : y < 200) :
    0 < xCoverSum x ∧ 0 < yCoverSum y := by
  constructor
  · have h := xterm_cases x hx1 hx2
    have n1 := tri_nonneg (-400) (-400) (-20) x
    have n2 := tri_nonneg (-30) (-15) 0 x
    have n3 := tri_nonneg (-15) 0 15 x
    have n4 := tri_nonneg 0 15 30 x
    have n5 := tri_nonneg 20 400 400 x
    unfold xCoverSum x_far_left x_left x_center x_right x_far_right at h ⊢
    rcases h with h | h | h | h | h <;> linarith
  · have h := yterm_cases y hy1 hy2
    have n1 := tri_nonneg (-200) (-100) 0 y
    have n2 := tri_nonneg (-100) 0 100 y
    have n3 := tri_nonneg 0 100 200 y
    unfold yCoverSum y_above y_center y_below at h ⊢
    rcases h with h | h | h <;> linarith

/-- Witness for the amended C2 at the crisp observation (0, 0). -/
theorem fuzzy_coverage_inside_witness :
    0 < xCoverSum 0 ∧ 0 < yCoverSum 0 :=
  fuzzy_coverage_inside 0 0 (by norm_num) (by norm_num) (by norm_num)
    (by norm_num)

/-- Firing strengths are nonnegative. -/
lemma fire_fast_left_nonneg (x y : ℚ) : 0 ≤ fire_fast_left x y := by
  unfold fire_fast_left x_far_right
  exact le_trans (tri_nonneg _ _ _ _) (le_max_right _ _)

/-- The fast_right firing strength is nonnegative. -/
lemma fire_fast_right_nonneg (x y : ℚ) : 0 ≤ fire_fast_right x y := by
  unfold fire_fast_right x_far_left
  exact le_trans (tri_nonneg _ _ _ _) (le_max_right _ _)

/-- The aggregate membership is nonnegative everywhere. -/
lemma aggAt_nonneg (x y u : ℚ) : 0 ≤ aggAt x y u := by
  unfold aggAt
  refine le_trans (le_min (fire_fast_left_nonneg x y) ?_) (le_max_left _ _)
  unfold v_fast_left
  exact tri_nonneg _ _ _ _

/-- The fast_left slot is below the aggregate membership. -/
lemma le_aggAt_fast_left (x y u : ℚ) :
    min (fire_fast_left x y) (v_fast_left u) ≤ aggAt x y u := by
  unfold aggAt
  exact le_max_left _ _

/-- The slow_left slot is below the aggregate membership. -/
lemma le_aggAt_slow_left (x y u : ℚ) :
    min (fire_slow_left x y) (v_slow_left u) ≤ aggAt x y u := by
  unfold aggAt
  exact le_trans (le_max_left _ _) (le_max_right _ _)

/-- The stop slot is below the aggregate membership. -/
lemma le_aggAt_stop (x y u : ℚ) :
    min (fire_stop x y) (v_stop u) ≤ aggAt x y u := by
  unfold aggAt
  exact le_trans (le_trans (le_max_left _ _) (le_max_right _ _))
    (le_max_right _ _)

/-- The slow_right slot is below the aggregate membership. -/
lemma le_aggAt_slow_right (x y u : ℚ) :
    min (fire_slow_right x y) (v_slow_right u) ≤ aggAt x y u := by
  unfold aggAt
  exact le_trans (le_trans (le_trans (le_max_left _ _) (le_max_right _ _))
    (le_max_right _ _)) (le_max_right _ _)

/-- The fast_right slot is below the aggregate membership. -/
lemma le_aggAt_fast_right (x y u : ℚ) :
    min (fire_fast_right x y) (v_fast_right u) ≤ aggAt x y u := by
  unfold aggAt
  exact le_trans (le_max_right _ _) (le_trans (le_max_right _ _)
    (le_trans (le_max_right _ _) (le_max_right _ _)))

/-- Peak values of the velocity terms on the output grid. -/
lemma v_fast_right_peak : v_fast_right (outU 20) = 1 := by
  norm_num [v_fast_right, outU, tri]

/-- Peak of slow_right at grid point 19 (crisp value 9). -/
lemma v_slow_right_peak : v_slow_right (outU 19) = 1 := by
  norm_num [v_slow_right, outU, tri]

/-- Peak of stop at grid point 10 (crisp value 0). -/
lemma v_stop_peak : v_stop (outU 10) = 1 := by
  norm_num [v_stop, outU, tri]

/-- Peak of slow_left at grid point 1 (crisp value -9). -/
lemma v_slow_left_peak : v_slow_left (outU 1) = 1 := by
  norm_num [v_slow_left, outU, tri]

/-- Peak of fast_left at grid point 0 (crisp value -10). -/
lemma v_fast_left_peak : v_fast_left (outU 0) = 1 := by
  norm_num [v_fast_left, outU, tri]

/-- For any x in the x universe the aggregate set has positive area: some
x term fires and its velocity term's peak grid point carries positive
aggregate membership. -/
lemma aggArea_pos (x y : ℚ) (h1 : -400 ≤ x) (h2 : x ≤ 400) :
    0 < aggArea x y := by
  have key : ∀ i, i ∈ Finset.range 21 → 0 < aggAt x y (outU i) →
      0 < aggArea x y := by
    intro i hi hpos
    exact lt_of_lt_of_le hpos
      (Finset.single_le_sum (fun j _ => aggAt_nonneg x y (outU j)) hi)
  rcases xterm_cases x h1 h2 with h | h | h | h | h
  · refine key 20 (by decide) ?_
    have hf : 0 < fire_fast_right x y := by
      unfold fire_fast_right
      exact lt_of_lt_of_le h (le_max_right _ _)
    refine lt_of_lt_of_le ?_ (le_aggAt_fast_right x y (outU 20))
    rw [v_fast_right_peak]
    exact lt_min hf one_pos
  · refine key 19 (by decide) ?_
    have hf : 0 < fire_slow_right x y := h
    refine lt_of_lt_of_le ?_ (le_aggAt_slow_right x y (outU 19))
    rw [v_slow_right_peak]
    exact lt_min hf one_pos
  · refine key 10 (by decide) ?_
    have hf : 0 < fire_stop x y := h
    refine lt_of_lt_of_le ?_ (le_aggAt_stop x y (outU 10))
    rw [v_stop_peak]
    exact lt_min hf one_pos
  · refine key 1 (by decide) ?_
    have hf : 0 < fire_slow_left x y := h
    refine lt_of_lt_of_le ?_ (le_aggAt_slow_left x y (outU 1))
    rw [v_slow_left_peak]
    exact lt_min hf one_pos
  · refine key 0 (by decide) ?_
    have hf : 0 < fire_fast_left x y := by
      unfold fire_fast_left
      exact lt_of_lt_of_le h (le_max_right _ _)
    refine lt_of_lt_of_le ?_ (le_aggAt_fast_left x y (outU 0))
    rw [v_fast_left_peak]
    exact lt_min hf one_pos

/-- C5: make_decision never fails on any integer observation: the crisp
inputs are saturated into the declared universes (so the decision at any
observation equals the decision at its clipped image), and the centroid
computation at the clipped inputs is defined (isSome), because the x
universe is fully covered, so the aggregate set is never empty. -/
theorem make_decision_total_and_saturating (x y : ℤ) :
    (centroidOpt ((clipTo (-400) 400 x : ℤ) : ℚ)
        ((clipTo (-200) 200 y : ℤ) : ℚ)).isSome = true ∧
    make_decision x y
      = make_decision (clipTo (-400) 400 x) (clipTo (-200) 200 y) := by
  have hb1 : (-400 : ℤ) ≤ clipTo (-400) 400 x ∧ clipTo (-400) 400 x ≤ 400 := by
    unfold clipTo
    omega
  have hq1 : (-400 : ℚ) ≤ ((clipTo (-400) 400 x : ℤ) : ℚ) := by
    exact_mod_cast hb1.1
  have hq2 : ((clipTo (-400) 400 x : ℤ) : ℚ) ≤ 400 := by
    exact_mod_cast hb1.2
  have hpos := aggArea_pos ((clipTo (-400) 400 x : ℤ) : ℚ)
    ((clipTo (-200) 200 y : ℤ) : ℚ) hq1 hq2
  constructor
  · unfold centroidOpt
    rw [if_neg (ne_of_gt hpos)]
    rfl
  · unfold make_decision
    rw [show clipTo (-400) 400 (clipTo (-400) 400 x) = clipTo (-400) 400 x by
        unfold clipTo; omega,
      show clipTo (-200) 200 (clipTo (-200) 200 y) = clipTo (-200) 200 y by
        unfold clipTo; omega]

/-- C6: the decision step applies the degenerate-output policy: when the
aggregate fuzzy set at the (clipped) inputs has zero total membership it
returns the neutral fallback 0 instead of a failing division, and in
every other case it returns the centroid of the aggregate set over the
discretized output universe. -/
theorem make_decision_degenerate_fallback (x y : ℤ) :
    make_decision x y =
      if aggArea ((clipTo (-400) 400 x : ℤ) : ℚ)
          ((clipTo (-200) 200 y : ℤ) : ℚ) = 0
      then 0
      else aggMoment ((clipTo (-400) 400 x : ℤ) : ℚ)
          ((clipTo (-200) 200 y : ℤ) : ℚ)
        / aggArea ((clipTo (-400) 400 x : ℤ) : ℚ)
          ((clipTo (-200) 200 y : ℤ) : ℚ) := by
  unfold make_decision centroidOpt
  split_ifs <;> rfl

/-- Mirror: far_left at -x equals far_right at x. -/
lemma x_far_left_neg (x : ℚ) : x_far_left (-x) = x_far_right x := by
  unfold x_far_left x_far_right
  exact tri_neg 20 400 400 x

/-- Mirror: left at -x equals right at x. -/
lemma x_left_neg (x : ℚ) : x_left (-x) = x_right x := by
  unfold x_left x_right
  rw [← tri_neg 0 15 30 x]
  norm_num

/-- Mirror: the x center term is even. -/
lemma x_center_neg (x : ℚ) : x_center (-x) = x_center x := by
  unfold x_center
  rw [← tri_neg (-15) 0 15 x]
  norm_num

/-- Mirror: right at -x equals left at x. -/
lemma x_right_neg (x : ℚ) : x_right (-x) = x_left x := by
  have h := x_left_neg (-x)
  rw [neg_neg] at h
  exact h.symm

/-- Mirror: far_right at -x equals far_left at x. -/
lemma x_far_right_neg (x : ℚ) : x_far_right (-x) = x_far_left x := by
  have h := x_far_left_neg (-x)
  rw [neg_neg] at h
  exact h.symm

/-- Mirror: fast_left at u equals fast_right at -u. -/
lemma v_fast_left_neg (u : ℚ) : v_fast_left u = v_fast_right (-u) := by
  unfold v_fast_left v_fast_right
  rw [← tri_neg 10 10 10 (-u)]
  norm_num

/-- Mirror: slow_left at u equals slow_right at -u. -/
lemma v_slow_left_neg (u : ℚ) : v_slow_left u = v_slow_right (-u) := by
  unfold v_slow_left v_slow_right
  rw [← tri_neg 3 9 9 (-u)]
  norm_num

/-- Mirror: the stop term is even. -/
lemma v_stop_neg (u : ℚ) : v_stop u = v_stop (-u) := by
  unfold v_stop
  rw [← tri_neg (-3) 0 3 (-u)]
  norm_num

/-- Mirror: slow_right at u equals slow_left at -u. -/
lemma v_slow_right_neg (u : ℚ) : v_slow_right u = v_slow_left (-u) := by
  have h := v_slow_left_neg (-u)
  rw [neg_neg] at h
  exact h.symm

/-- Mirror: fast_right at u equals fast_left at -u. -/
lemma v_fast_right_neg (u : ℚ) : v_fast_right u = v_fast_left (-u) := by
  have h := v_fast_left_neg (-u)
  rw [neg_neg] at h
  exact h.symm

/-- Mirror: the fast_left firing at -x is the fast_right firing at x. -/
lemma fire_fast_left_neg (x y : ℚ) :
    fire_fast_left (-x) y = fire_fast_right x y := by
  unfold fire_fast_left fire_fast_right rule1 rule2
  rw [x_right_neg, x_far_right_neg]

/-- Mirror: the slow_left firing at -x is the slow_right firing at x. -/
lemma fire_slow_left_neg (x y : ℚ) :
    fire_slow_left (-x) y = fire_slow_right x y := by
  unfold fire_slow_left fire_slow_right
  rw [x_right_neg]

/-- Mirror: the stop firing is even in x. -/
lemma fire_stop_neg (x y : ℚ) : fire_stop (-x) y = fire_stop x y := by
  unfold fire_stop
  rw [x_center_neg]

/-- Mirror: the slow_right firing at -x is the slow_left firing at x. -/
lemma fire_slow_right_neg (x y : ℚ) :
    fire_slow_right (-x) y = fire_slow_left x y := by
  unfold fire_slow_right fire_slow_left
  rw [x_left_neg]

/-- Mirror: the fast_right firing at -x is the fast_left firing at x. -/
lemma fire_fast_right_neg (x y : ℚ) :
    fire_fast_right (-x) y = fire_fast_left x y := by
  unfold fire_fast_right fire_fast_left rule1 rule2
  rw [x_left_neg, x_far_left_neg]

/-- A five-way max is invariant under reversing its arguments. -/
lemma max5_rev (a b c d e : ℚ) :
    max a (max b (max c (max d e))) = max e (max d (max c (max b a))) := by
  simp [max_comm, max_assoc, max_left_comm]

/-- Mirroring the x input mirrors the aggregate set over the output axis. -/
lemma aggAt_neg (x y u : ℚ) : aggAt (-x) y u = aggAt x y (-u) := by
  unfold aggAt
  rw [fire_fast_left_neg, fire_slow_left_neg, fire_stop_neg,
    fire_slow_right_neg, fire_fast_right_neg, v_fast_left_neg u,
    v_slow_left_neg u, v_stop_neg u, v_slow_right_neg u, v_fast_right_neg u]
  exact max5_rev _ _ _ _ _

/-- The useful index bound inside the output grid sums. -/
lemma outU_reflect {i : ℕ} (hi : i ∈ Finset.range 21) :
    outU (20 - i) = -outU i := by
  have hi' : i ≤ 20 := by
    have := Finset.mem_range.mp hi
    omega
  unfold outU
  rw [Nat.cast_sub hi']
  push_cast
  ring

/-- The aggregate area is even in the x input. -/
lemma aggArea_neg (x y : ℚ) : aggArea (-x) y = aggArea x y := by
  unfold aggArea
  have h : ∀ i ∈ Finset.range 21, aggAt (-x) y (outU i)
      = aggAt x y (outU (20 - i)) := by
    intro i hi
    rw [aggAt_neg, outU_reflect hi]
  rw [Finset.sum_congr rfl h]
  exact Finset.sum_range_reflect (fun i => aggAt x y (outU i)) 21

/-- The aggregate moment is odd in the x input. -/
lemma aggMoment_neg (x y : ℚ) : aggMoment (-x) y = -aggMoment x y := by
  unfold aggMoment
  have h : ∀ i ∈ Finset.range 21, outU i * aggAt (-x) y (outU i)
      = -(outU (20 - i) * aggAt x y (outU (20 - i))) := by
    intro i hi
    rw [aggAt_neg, outU_reflect hi]
    ring
  rw [Finset.sum_congr rfl h, Finset.sum_neg_distrib]
  exact neg_inj.mpr
    (Finset.sum_range_reflect (fun i => outU i * aggAt x y (outU i)) 21)

/-- The optional centroid is odd in the x input. -/
lemma centroidOpt_neg (x y : ℚ) :
    centroidOpt (-x) y = Option.map (fun v => -v) (centroidOpt x y) := by
  unfold centroidOpt
  rw [aggArea_neg, aggMoment_neg]
  split_ifs with h
  · rfl
  · simp [neg_div]

/-- C8: the decision function is horizontally antisymmetric: for every
observation, mirroring the x offset negates the crisp output exactly (in
the exact rational model the discretization error of the symmetric
output grid cancels, so the spec's approximate symmetry holds with zero
tolerance). -/
theorem make_decision_antisymmetric (x y : ℤ) :
    make_decision (-x) y = -make_decision x y := by
  unfold make_decision
  rw [show clipTo (-400) 400 (-x) = -clipTo (-400) 400 x by
      unfold clipTo; omega]
  rw [show ((-clipTo (-400) 400 x : ℤ) : ℚ) = -((clipTo (-400) 400 x : ℤ) : ℚ)
      by push_cast; ring]
  rw [centroidOpt_neg]
  rcases centroidOpt ((clipTo (-400) 400 x : ℤ) : ℚ)
      ((clipTo (-200) 200 y : ℤ) : ℚ) with _ | v
  · simp
  · simp

/-- Modelled from the spec: the mutable state of the
ControlSystemSimulation object (spec sections 4.4-4.5): the two staged
crisp inputs and the last computed output.  The skfuzzy library holds
this state; the crisp result of a computation is a function of the staged
inputs alone. -/
structure ControlSimulation where
  x_dist : ℤ
  y_dist : ℤ
  output_velocity : ℚ
deriving DecidableEq

/-- lab9.py lines 288-298 as a state transformer: make_decision stages
both inputs on the simulation object, computes, and returns the crisp
output alongside the updated simulation state. -/
def simMakeDecision (s : ControlSimulation) (x y : ℤ) :
    ℚ × ControlSimulation :=
  (make_decision x y, ⟨x, y, make_decision x y⟩)

/-- A sequence of decisions threaded through the simulation state. -/
def runDecisions : ControlSimulation → List (ℤ × ℤ) → List ℚ
  | _, [] => []
  | s, p :: ps =>
    (simMakeDecision s p.1 p.2).1 :: runDecisions (simMakeDecision s p.1 p.2).2 ps

/-- C9: the decision step is a pure function of the two crisp inputs: any
sequence of calls threaded through the mutable simulation state, from any
starting state and in any interleaving, returns for each observation
exactly the pure value make_decision of that observation, so identical
inputs always give identical outputs and no hidden state influences the
result. -/
theorem make_decision_deterministic (s : ControlSimulation)
    (ps : List (ℤ × ℤ)) :
    runDecisions s ps = ps.map (fun p => make_decision p.1 p.2) := by
  induction ps generalizing s with
  | nil => rfl
  | cons p ps ih =>
    simp only [runDecisions, simMakeDecision, List.map_cons]
    exact congrArg _ (ih _)
